import Mathlib

/-!
# Verification of the libMesh fem_system_ex3 elasticity assembly kernel

Shallow embedding of `examples/fem_system/fem_system_ex3/elasticity_system.C`.

Modelling conventions:
* The C++ scalar type `Real`/`Number` (double) is modelled as `ℚ`; every claim
  under scrutiny is about the exact arithmetic structure of the accumulations,
  not about floating-point rounding.
* A `FEMContext` together with the owning system data is modelled by the
  structure `Ctx`: it carries the spatial dimension `_dim`, the variable
  indices registered by `init_data`, the rate-variable resolver
  `get_second_order_dot_var` (field `dot_var`), and the basis/quadrature
  accessors (`get_JxW`, `get_phi`, `get_dphi`, `get_normals`,
  `interior_gradient`, `interior_accel`, the time-integrator scale factors and
  `has_side_boundary_id`).  All FE accessors take the variable index that the
  C++ code passes to `get_element_fe` / `get_side_fe` as their first argument.
* The per-element residual vectors and Jacobian matrices live in the state
  `St`: the residual part maps a variable index and a local dof index to a
  scalar (`c.get_elem_residual(var)(i)`), the Jacobian part maps a row
  variable, column variable and two local dof indices to a scalar
  (`c.get_elem_jacobian(rvar, cvar)(i,j)`).  `+=` on a `DenseSubVector` /
  `DenseSubMatrix` entry becomes the point update `addV` / `addM`, so variable
  aliasing (`_w_var = _v_var` in 2D, etc.) is represented faithfully: two
  names that resolve to the same variable index write to the same entries.
* `for` loops are embedded by `iterN`, which applies the loop body to the
  state for indices `0, 1, …, n-1` in program order.
-/

namespace LibmeshEx3

/-- Modelled from the spec: `kronecker_delta` is declared in
`elasticity_system.h`, which is not part of the visible sources; per the spec
it is the Kronecker delta `δ(i,j)`. -/
def kronecker_delta (i j : ℕ) : ℚ :=
  if i = j then 1 else 0

/-- `ElasticitySystem::elasticity_tensor` (elasticity_system.C:417-430):
`λ₁ δ(i,j) δ(k,l) + λ₂ (δ(i,k) δ(j,l) + δ(i,l) δ(j,k))` with hard-coded
material parameters ν = 0.3 and E = 1.0e2. -/
def elasticity_tensor (i j k l : ℕ) : ℚ :=
  let poisson_ratio : ℚ := 0.3
  let young_modulus : ℚ := 1.0e2
  let lambda_1 : ℚ :=
    (young_modulus * poisson_ratio) / ((1 + poisson_ratio) * (1 - 2 * poisson_ratio))
  let lambda_2 : ℚ := young_modulus / (2 * (1 + poisson_ratio))
  lambda_1 * kronecker_delta i j * kronecker_delta k l +
    lambda_2 * (kronecker_delta i k * kronecker_delta j l +
      kronecker_delta i l * kronecker_delta j k)

/-- The spec formula for the elasticity tensor, written from the spec words
with symbolic Poisson ratio `nu` and Young modulus `E`:
`λ₁·δ(i,j)·δ(k,l) + λ₂·(δ(i,k)·δ(j,l) + δ(i,l)·δ(j,k))` with
`λ₁ = Eν/((1+ν)(1-2ν))` and `λ₂ = E/(2(1+ν))`. -/
def specElasticity (nu E : ℚ) (i j k l : ℕ) : ℚ :=
  (E * nu / ((1 + nu) * (1 - 2 * nu))) * kronecker_delta i j * kronecker_delta k l +
    (E / (2 * (1 + nu))) *
      (kronecker_delta i k * kronecker_delta j l + kronecker_delta i l * kronecker_delta j k)

/-- Residual storage: variable index → local dof index → value. -/
abbrev ResVecs := ℕ → ℕ → ℚ

/-- Jacobian storage: row variable → column variable → local dof pair → value. -/
abbrev JacMats := ℕ → ℕ → ℕ → ℕ → ℚ

/-- Per-element accumulation state: all residual blocks and Jacobian blocks. -/
abbrev St := ResVecs × JacMats

/-- `F(v)(i) += x` on a residual block. -/
def addV (R : ResVecs) (v i : ℕ) (x : ℚ) : ResVecs :=
  fun v' i' => if v' = v ∧ i' = i then R v' i' + x else R v' i'

/-- The contribution added by a single `addV`, as a standalone state. -/
def sngV (v i : ℕ) (x : ℚ) : ResVecs :=
  fun v' i' => if v' = v ∧ i' = i then x else 0

/-- `K(r,c)(i,j) += x` on a Jacobian block. -/
def addM (K : JacMats) (r c i j : ℕ) (x : ℚ) : JacMats :=
  fun r' c' i' j' =>
    if r' = r ∧ c' = c ∧ i' = i ∧ j' = j then K r' c' i' j' + x else K r' c' i' j'

/-- The contribution added by a single `addM`, as a standalone state. -/
def sngM (r c i j : ℕ) (x : ℚ) : JacMats :=
  fun r' c' i' j' => if r' = r ∧ c' = c ∧ i' = i ∧ j' = j then x else 0

/-- `for (k = 0; k != n; k++) body` acting on a state. -/
def iterN {α : Type} (n : ℕ) (f : ℕ → α → α) (s : α) : α :=
  (List.range n).foldl (fun a k => f k a) s

/-- The boundary id constants defined at elasticity_system.C:32-37 (only
`boundary_id_min_x` is read by `init_data`). -/
def boundary_id_min_z : ℤ := 0

def boundary_id_min_y : ℤ := 1

def boundary_id_max_x : ℤ := 2

def boundary_id_max_y : ℤ := 3

def boundary_id_min_x : ℤ := 4

def boundary_id_max_z : ℤ := 5

/-- The owning system plus the per-element `FEMContext`, i.e. everything the
three assembly member functions read.  `dot_var` is
`get_second_order_dot_var`, resolved by the external time solver; the FE data
accessors take the variable index passed to `get_element_fe`/`get_side_fe`.
The boundary id constants `traction_boundary_id`/`pressure_boundary_id` are
declared in the (not visible) header, so they appear here as unconstrained
fields (modelled from the spec, which treats them as plain integer tags). -/
structure Ctx where
  dim : ℕ
  u_var : ℕ
  v_var : ℕ
  w_var : ℕ
  dot_var : ℕ → ℕ
  n_dof_indices : ℕ → ℕ
  n_elem_qp : ℕ
  n_side_qp : ℕ
  elem_JxW : ℕ → ℕ → ℚ
  elem_phi : ℕ → ℕ → ℕ → ℚ
  elem_grad_phi : ℕ → ℕ → ℕ → ℕ → ℚ
  side_JxW : ℕ → ℕ → ℚ
  side_phi : ℕ → ℕ → ℕ → ℚ
  side_normals : ℕ → ℕ → ℕ → ℚ
  interior_gradient : ℕ → ℕ → ℕ → ℚ
  interior_accel : ℕ → ℕ → ℚ
  elem_solution_derivative : ℚ
  elem_solution_accel_derivative : ℚ
  has_side_boundary_id : ℤ → Bool
  traction_boundary_id : ℤ
  pressure_boundary_id : ℤ
  rho : ℚ

/-- The displacement variable of component `k` (0 ↦ `_u_var`, 1 ↦ `_v_var`,
2 ↦ `_w_var`), the selector the C++ code spells out by naming the three member
fields. -/
def compVar (c : Ctx) (k : ℕ) : ℕ :=
  if k = 0 then c.u_var else if k = 1 then c.v_var else c.w_var

/-- The rate (dot) variable of component `k`: `get_second_order_dot_var`
applied to the component's displacement variable. -/
def compDot (c : Ctx) (k : ℕ) : ℕ :=
  c.dot_var (compVar c k)

/-- `Gradient body_force(0.0, 0.0, -1.0)` (elasticity_system.C:184). -/
def body_force (k : ℕ) : ℚ :=
  if k = 2 then -1 else 0

/-- The `Tensor grad_U(grad_u, grad_v, grad_w)` built at each quadrature point
(elasticity_system.C:188-196): row `k` is the interior gradient of the `k`-th
displacement variable; `grad_v`/`grad_w` stay default-initialised to zero when
the dimension guard at line 190/192 fails. -/
def grad_U (c : Ctx) (qp k l : ℕ) : ℚ :=
  if k = 0 then c.interior_gradient c.u_var qp l
  else if k = 1 then (if 1 < c.dim then c.interior_gradient c.v_var qp l else 0)
  else if k = 2 then (if 2 < c.dim then c.interior_gradient c.w_var qp l else 0)
  else 0

/-- The stress tensor accumulated at elasticity_system.C:198-203: `tau` is
zero-initialised and the quadruple loop only touches entries with both indices
below `_dim`, where it accumulates
`Σ_{k,l < _dim} elasticity_tensor(i,j,k,l) · grad_U(k,l)`. -/
def tau (c : Ctx) (qp i j : ℕ) : ℚ :=
  if i < c.dim ∧ j < c.dim then
    ∑ k ∈ Finset.range c.dim, ∑ l ∈ Finset.range c.dim,
      elasticity_tensor i j k l * grad_U c qp k l
  else 0

/-- The scalar added to residual block `comp` for dof `i` in one pass of the
`alpha` loop body (elasticity_system.C:209-213):
`(tau(comp,alpha)·grad_phi[i][qp](alpha) − body_force(comp)·phi[i][qp])·JxW[qp]`. -/
def resTerm (c : Ctx) (comp qp i alpha : ℕ) : ℚ :=
  (tau c qp comp alpha * c.elem_grad_phi c.u_var i qp alpha -
    body_force comp * c.elem_phi c.u_var i qp) * c.elem_JxW c.u_var qp

/-- The scalar added to Jacobian block (row,col) for dof pair `(i,j)` in one
pass of the `beta` loop body (elasticity_system.C:222-249):
`elasticity_tensor(row,alpha,col,beta)·c0·grad_phi[i][qp](alpha)·JxW[qp]` with
`c0 = grad_phi[j][qp](beta)·get_elem_solution_derivative()`. -/
def jacTerm (c : Ctx) (row col qp i alpha j beta : ℕ) : ℚ :=
  elasticity_tensor row alpha col beta *
    (c.elem_grad_phi c.u_var j qp beta * c.elem_solution_derivative) *
    c.elem_grad_phi c.u_var i qp alpha * c.elem_JxW c.u_var qp

/-- The body of the `beta` loop (elasticity_system.C:219-251): the nine `+=`
writes into `Kuu, …, Kww`, the writes beyond block `Kuu` guarded by
`if (_dim > 1)` and `if (_dim > 2)`.  Rows are the dot (rate) variables, the
columns the displacement variables, exactly as the blocks were fetched at
lines 172-180. -/
def jacBody (c : Ctx) (qp i alpha j beta : ℕ) (s : St) : St :=
  let s4 : St :=
    (s.1, addM s.2 (c.dot_var c.u_var) c.u_var i j (jacTerm c 0 0 qp i alpha j beta))
  let s5 : St :=
    if 1 < c.dim then
      (s4.1,
        addM (addM (addM s4.2
          (c.dot_var c.u_var) c.v_var i j (jacTerm c 0 1 qp i alpha j beta))
          (c.dot_var c.v_var) c.u_var i j (jacTerm c 1 0 qp i alpha j beta))
          (c.dot_var c.v_var) c.v_var i j (jacTerm c 1 1 qp i alpha j beta))
    else s4
  let s6 : St :=
    if 2 < c.dim then
      (s5.1,
        addM (addM (addM (addM (addM s5.2
          (c.dot_var c.u_var) c.w_var i j (jacTerm c 0 2 qp i alpha j beta))
          (c.dot_var c.v_var) c.w_var i j (jacTerm c 1 2 qp i alpha j beta))
          (c.dot_var c.w_var) c.u_var i j (jacTerm c 2 0 qp i alpha j beta))
          (c.dot_var c.w_var) c.v_var i j (jacTerm c 2 1 qp i alpha j beta))
          (c.dot_var c.w_var) c.w_var i j (jacTerm c 2 2 qp i alpha j beta))
    else s5
  s6

/-- The residual writes of the `alpha` loop body (elasticity_system.C:209-213):
`Fu(i) += …` always, `Fv(i) += …` when `_dim > 1`, `Fw(i) += …` when
`_dim > 2`; the blocks were fetched by the dot (rate) variables at lines
168-170. -/
def resBody (c : Ctx) (qp i alpha : ℕ) (s : St) : St :=
  let s1 : St := (addV s.1 (c.dot_var c.u_var) i (resTerm c 0 qp i alpha), s.2)
  let s2 : St :=
    if 1 < c.dim then (addV s1.1 (c.dot_var c.v_var) i (resTerm c 1 qp i alpha), s1.2)
    else s1
  let s3 : St :=
    if 2 < c.dim then (addV s2.1 (c.dot_var c.w_var) i (resTerm c 2 qp i alpha), s2.2)
    else s2
  s3

/-- The full `alpha` loop body (elasticity_system.C:207-254): the residual
writes, then, if the Jacobian was requested, the `j`/`beta` loops of Jacobian
writes. -/
def alphaBody (c : Ctx) (request_jacobian : Bool) (qp i alpha : ℕ) (s : St) : St :=
  let s3 := resBody c qp i alpha s
  if request_jacobian then
    iterN (c.n_dof_indices c.u_var)
      (fun j t => iterN c.dim (fun beta t2 => jacBody c qp i alpha j beta t2) t) s3
  else s3

/-- `ElasticitySystem::element_time_derivative`
(elasticity_system.C:137-261): the triple loop over quadrature points, local
test dofs `i` (bounded by `n_dof_indices(_u_var)`) and components `alpha`,
returning `request_jacobian` unchanged. -/
def element_time_derivative (c : Ctx) (request_jacobian : Bool) (s : St) : Bool × St :=
  (request_jacobian,
    iterN c.n_elem_qp (fun qp t =>
      iterN (c.n_dof_indices c.u_var) (fun i t2 =>
        iterN c.dim (fun alpha t3 => alphaBody c request_jacobian qp i alpha t3) t2) t) s)

/-- The traction vector used at quadrature point `qp` of a flagged side
(elasticity_system.C:305-315): the mutable `Gradient traction` starts as the
unit downward vector along the last active dimension (`traction(_dim-1)=-1`)
and, on a pressure side, is overwritten with `pressure * normals[qp]` at the
top of the `qp` loop before any use, so its value at each use site is a pure
function of `qp`. -/
def tractionAt (c : Ctx) (qp : ℕ) : ℕ → ℚ :=
  if c.has_side_boundary_id c.pressure_boundary_id then
    fun k => 100 * c.side_normals c.u_var qp k
  else
    fun k => if k = c.dim - 1 then -1 else 0

/-- The residual writes of the side `i` loop body (elasticity_system.C:317-324):
`Fu(i) -= traction(0)·phi[i][qp]·JxW[qp]`, with the `_dim > 1` / `_dim > 2`
guards for `Fv`/`Fw`. -/
def sideBody (c : Ctx) (qp i : ℕ) (s : St) : St :=
  let s1 : St :=
    (addV s.1 (c.dot_var c.u_var) i
      (-(tractionAt c qp 0 * c.side_phi c.u_var i qp * c.side_JxW c.u_var qp)), s.2)
  let s2 : St :=
    if 1 < c.dim then
      (addV s1.1 (c.dot_var c.v_var) i
        (-(tractionAt c qp 1 * c.side_phi c.u_var i qp * c.side_JxW c.u_var qp)), s1.2)
    else s1
  let s3 : St :=
    if 2 < c.dim then
      (addV s2.1 (c.dot_var c.w_var) i
        (-(tractionAt c qp 2 * c.side_phi c.u_var i qp * c.side_JxW c.u_var qp)), s2.2)
    else s2
  s3

/-- `ElasticitySystem::side_time_derivative` (elasticity_system.C:263-331):
a no-op unless the side carries the traction or pressure boundary id,
otherwise the double loop of residual-only writes; no Jacobian block is ever
touched, and `request_jacobian` is returned unchanged. -/
def side_time_derivative (c : Ctx) (request_jacobian : Bool) (s : St) : Bool × St :=
  (request_jacobian,
    if c.has_side_boundary_id c.traction_boundary_id ||
        c.has_side_boundary_id c.pressure_boundary_id then
      iterN c.n_side_qp (fun qp t =>
        iterN (c.n_dof_indices c.u_var) (fun i t2 => sideBody c qp i t2) t) s
    else s)

/-- The residual writes of the mass `i` loop body (elasticity_system.C:389-393):
`Fu(i) += _rho·u_ddot·phi[i][qp]·JxW[qp]` and its guarded companions, where
`u_ddot = interior_accel(u_dot_var, qp)` etc. (lines 380-385; `v_ddot`/`w_ddot`
are only read under the same dimension guards that define them) and the FE data
comes from `get_element_fe(u_dot_var)`. -/
def massResBody (c : Ctx) (qp i : ℕ) (s : St) : St :=
  let s1 : St :=
    (addV s.1 (c.dot_var c.u_var) i
      (c.rho * c.interior_accel (c.dot_var c.u_var) qp *
        c.elem_phi (c.dot_var c.u_var) i qp * c.elem_JxW (c.dot_var c.u_var) qp), s.2)
  let s2 : St :=
    if 1 < c.dim then
      (addV s1.1 (c.dot_var c.v_var) i
        (c.rho * c.interior_accel (c.dot_var c.v_var) qp *
          c.elem_phi (c.dot_var c.u_var) i qp * c.elem_JxW (c.dot_var c.u_var) qp), s1.2)
    else s1
  let s3 : St :=
    if 2 < c.dim then
      (addV s2.1 (c.dot_var c.w_var) i
        (c.rho * c.interior_accel (c.dot_var c.w_var) qp *
          c.elem_phi (c.dot_var c.u_var) i qp * c.elem_JxW (c.dot_var c.u_var) qp), s2.2)
    else s2
  s3

/-- The Jacobian term of `mass_residual` (elasticity_system.C:399-400):
`_rho·phi[i][qp]·phi[j][qp]·JxW[qp] · get_elem_solution_accel_derivative()`. -/
def massJacTerm (c : Ctx) (qp i j : ℕ) : ℚ :=
  c.rho * c.elem_phi (c.dot_var c.u_var) i qp * c.elem_phi (c.dot_var c.u_var) j qp *
    c.elem_JxW (c.dot_var c.u_var) qp * c.elem_solution_accel_derivative

/-- The `j` loop body of `mass_residual` (elasticity_system.C:397-407): the
same `jac_term` is added to the diagonal blocks `Kuu = (u_dot,u_dot)`,
`Kvv = (v_dot,v_dot)`, `Kww = (w_dot,w_dot)` (fetched at lines 368-370), the
latter two under the dimension guards. -/
def massJacBody (c : Ctx) (qp i j : ℕ) (s : St) : St :=
  let s1 : St :=
    (s.1, addM s.2 (c.dot_var c.u_var) (c.dot_var c.u_var) i j (massJacTerm c qp i j))
  let s2 : St :=
    if 1 < c.dim then
      (s1.1, addM s1.2 (c.dot_var c.v_var) (c.dot_var c.v_var) i j (massJacTerm c qp i j))
    else s1
  let s3 : St :=
    if 2 < c.dim then
      (s2.1, addM s2.2 (c.dot_var c.w_var) (c.dot_var c.w_var) i j (massJacTerm c qp i j))
    else s2
  s3

/-- `ElasticitySystem::mass_residual` (elasticity_system.C:333-414): loop over
quadrature points and local dofs (bounded by `n_dof_indices(u_dot_var)`), the
residual writes followed by the Jacobian `j` loop when requested;
`request_jacobian` is returned unchanged. -/
def mass_residual (c : Ctx) (request_jacobian : Bool) (s : St) : Bool × St :=
  (request_jacobian,
    iterN c.n_elem_qp (fun qp t =>
      iterN (c.n_dof_indices (c.dot_var c.u_var)) (fun i t2 =>
        let t3 := massResBody c qp i t2
        if request_jacobian then
          iterN (c.n_dof_indices (c.dot_var c.u_var))
            (fun j t4 => massJacBody c qp i j t4) t3
        else t3) t) s)

/-- Modelled from the spec: the boundary id constants `node_boundary_id`,
`edge_boundary_id`, `fixed_u_boundary_id`, `fixed_v_boundary_id` are declared
in `elasticity_system.h`, which is not part of the visible sources; the spec
treats them as a fixed table of plain integer tags, so they are carried as
unconstrained parameters. -/
structure BoundaryIds where
  node_boundary_id : ℤ
  edge_boundary_id : ℤ
  fixed_u_boundary_id : ℤ
  fixed_v_boundary_id : ℤ

/-- Result of `ElasticitySystem::init_data`: the registered variable indices
and the list of `DirichletBoundary` objects handed to
`DofMap::add_dirichlet_boundary`, each recorded as its boundary-id set paired
with its variable list. -/
structure InitResult where
  u_var : ℕ
  v_var : ℕ
  w_var : ℕ
  dirichlet_boundaries : List (Finset ℤ × List ℕ)

/-- `ElasticitySystem::init_data` (elasticity_system.C:41-112).
`add_variable` hands out consecutive variable indices starting from the
system's current variable count `n0` (zero for the example's fresh system);
`Uy`/`Uz` are only added when the dimension allows, otherwise the index
aliases the previous one (lines 43-51).  `all_boundary_ids` is the mesh's
boundary-id set after the cross-processor `set_union` (lines 61-62); the
candidate Dirichlet sets are built by the membership tests of lines 64-73, and
the `DirichletBoundary` objects are registered at lines 88-106: the generic
one unconditionally, the `u`/`v`-specific ones only when their id set is
non-empty. -/
def init_data (ids : BoundaryIds) (dim n0 : ℕ) (all_boundary_ids : Finset ℤ) :
    InitResult :=
  let u_var := n0
  let v_var := if 1 < dim then n0 + 1 else u_var
  let w_var := if 2 < dim then n0 + 2 else v_var
  let d0 : Finset ℤ := ∅
  let d1 := if boundary_id_min_x ∈ all_boundary_ids then insert boundary_id_min_x d0 else d0
  let d2 := if ids.node_boundary_id ∈ all_boundary_ids then insert ids.node_boundary_id d1 else d1
  let dirichlet_boundary_ids :=
    if ids.edge_boundary_id ∈ all_boundary_ids then insert ids.edge_boundary_id d2 else d2
  let dirichlet_u_boundary_ids : Finset ℤ :=
    if ids.fixed_u_boundary_id ∈ all_boundary_ids then {ids.fixed_u_boundary_id} else ∅
  let dirichlet_v_boundary_ids : Finset ℤ :=
    if ids.fixed_v_boundary_id ∈ all_boundary_ids then {ids.fixed_v_boundary_id} else ∅
  let vars :=
    [u_var] ++ (if 1 < dim then [v_var] else []) ++ (if 2 < dim then [w_var] else [])
  let bcs := [(dirichlet_boundary_ids, vars)]
  let bcs := if dirichlet_u_boundary_ids ≠ ∅ then
      bcs ++ [(dirichlet_u_boundary_ids, [u_var])] else bcs
  let bcs := if dirichlet_v_boundary_ids ≠ ∅ then
      bcs ++ [(dirichlet_v_boundary_ids, [v_var])] else bcs
  { u_var := u_var, v_var := v_var, w_var := w_var, dirichlet_boundaries := bcs }

/-- Modelled from the spec: `DofMap::add_dirichlet_boundary` and the constraint
table it later populates are not part of the visible sources.  Per the spec, a
registered homogeneous Dirichlet boundary constrains exactly its variable
subset on its boundary-id set, so the constraint table after `init_data` is
the union, over the registered boundaries, of (boundary id, variable) pairs. -/
def constrainedPairs (r : InitResult) : Finset (ℤ × ℕ) :=
  r.dirichlet_boundaries.foldr (fun bc acc => bc.1 ×ˢ bc.2.toFinset ∪ acc) ∅

/-! ## Contribution (delta) views of the loop bodies

Each loop body above adds state-independent contributions; the following
definitions name those contributions so that the loops can be summed. -/

/-- The residual contribution of one `alpha` loop body pass. -/
def resDelta (c : Ctx) (qp i alpha : ℕ) : ResVecs :=
  sngV (c.dot_var c.u_var) i (resTerm c 0 qp i alpha) +
    (if 1 < c.dim then sngV (c.dot_var c.v_var) i (resTerm c 1 qp i alpha) else 0) +
    (if 2 < c.dim then sngV (c.dot_var c.w_var) i (resTerm c 2 qp i alpha) else 0)

/-- The Jacobian contribution of one `beta` loop body pass. -/
def jacDelta (c : Ctx) (qp i alpha j beta : ℕ) : JacMats :=
  sngM (c.dot_var c.u_var) c.u_var i j (jacTerm c 0 0 qp i alpha j beta) +
    (if 1 < c.dim then
      sngM (c.dot_var c.u_var) c.v_var i j (jacTerm c 0 1 qp i alpha j beta) +
        sngM (c.dot_var c.v_var) c.u_var i j (jacTerm c 1 0 qp i alpha j beta) +
        sngM (c.dot_var c.v_var) c.v_var i j (jacTerm c 1 1 qp i alpha j beta)
     else 0) +
    (if 2 < c.dim then
      sngM (c.dot_var c.u_var) c.w_var i j (jacTerm c 0 2 qp i alpha j beta) +
        sngM (c.dot_var c.v_var) c.w_var i j (jacTerm c 1 2 qp i alpha j beta) +
        sngM (c.dot_var c.w_var) c.u_var i j (jacTerm c 2 0 qp i alpha j beta) +
        sngM (c.dot_var c.w_var) c.v_var i j (jacTerm c 2 1 qp i alpha j beta) +
        sngM (c.dot_var c.w_var) c.w_var i j (jacTerm c 2 2 qp i alpha j beta)
     else 0)

/-- The Jacobian contribution of one `alpha` loop body pass (the `j`/`beta`
double loop). -/
def alphaJacDelta (c : Ctx) (qp i alpha : ℕ) : JacMats :=
  ∑ j ∈ Finset.range (c.n_dof_indices c.u_var), ∑ beta ∈ Finset.range c.dim,
    jacDelta c qp i alpha j beta

/-- The total residual contribution of `element_time_derivative`. -/
def interiorResDelta (c : Ctx) : ResVecs :=
  ∑ qp ∈ Finset.range c.n_elem_qp, ∑ i ∈ Finset.range (c.n_dof_indices c.u_var),
    ∑ alpha ∈ Finset.range c.dim, resDelta c qp i alpha

/-- The total Jacobian contribution of `element_time_derivative` when the
Jacobian is requested. -/
def interiorJacDelta (c : Ctx) : JacMats :=
  ∑ qp ∈ Finset.range c.n_elem_qp, ∑ i ∈ Finset.range (c.n_dof_indices c.u_var),
    ∑ alpha ∈ Finset.range c.dim, alphaJacDelta c qp i alpha

/-- The residual contribution of one side `i` loop body pass. -/
def sideDelta (c : Ctx) (qp i : ℕ) : ResVecs :=
  sngV (c.dot_var c.u_var) i
      (-(tractionAt c qp 0 * c.side_phi c.u_var i qp * c.side_JxW c.u_var qp)) +
    (if 1 < c.dim then
      sngV (c.dot_var c.v_var) i
        (-(tractionAt c qp 1 * c.side_phi c.u_var i qp * c.side_JxW c.u_var qp))
     else 0) +
    (if 2 < c.dim then
      sngV (c.dot_var c.w_var) i
        (-(tractionAt c qp 2 * c.side_phi c.u_var i qp * c.side_JxW c.u_var qp))
     else 0)

/-- The total residual contribution of `side_time_derivative` on a flagged
side. -/
def sideResDelta (c : Ctx) : ResVecs :=
  ∑ qp ∈ Finset.range c.n_side_qp, ∑ i ∈ Finset.range (c.n_dof_indices c.u_var),
    sideDelta c qp i

/-- The residual contribution of one mass `i` loop body pass. -/
def massDelta (c : Ctx) (qp i : ℕ) : ResVecs :=
  sngV (c.dot_var c.u_var) i
      (c.rho * c.interior_accel (c.dot_var c.u_var) qp *
        c.elem_phi (c.dot_var c.u_var) i qp * c.elem_JxW (c.dot_var c.u_var) qp) +
    (if 1 < c.dim then
      sngV (c.dot_var c.v_var) i
        (c.rho * c.interior_accel (c.dot_var c.v_var) qp *
          c.elem_phi (c.dot_var c.u_var) i qp * c.elem_JxW (c.dot_var c.u_var) qp)
     else 0) +
    (if 2 < c.dim then
      sngV (c.dot_var c.w_var) i
        (c.rho * c.interior_accel (c.dot_var c.w_var) qp *
          c.elem_phi (c.dot_var c.u_var) i qp * c.elem_JxW (c.dot_var c.u_var) qp)
     else 0)

/-- The Jacobian contribution of one mass `j` loop body pass. -/
def massJacStep (c : Ctx) (qp i j : ℕ) : JacMats :=
  sngM (c.dot_var c.u_var) (c.dot_var c.u_var) i j (massJacTerm c qp i j) +
    (if 1 < c.dim then
      sngM (c.dot_var c.v_var) (c.dot_var c.v_var) i j (massJacTerm c qp i j) else 0) +
    (if 2 < c.dim then
      sngM (c.dot_var c.w_var) (c.dot_var c.w_var) i j (massJacTerm c qp i j) else 0)

/-- The total residual contribution of `mass_residual`. -/
def massResDelta (c : Ctx) : ResVecs :=
  ∑ qp ∈ Finset.range c.n_elem_qp,
    ∑ i ∈ Finset.range (c.n_dof_indices (c.dot_var c.u_var)), massDelta c qp i

/-- The total Jacobian contribution of `mass_residual` when the Jacobian is
requested. -/
def massJacDelta (c : Ctx) : JacMats :=
  ∑ qp ∈ Finset.range c.n_elem_qp,
    ∑ i ∈ Finset.range (c.n_dof_indices (c.dot_var c.u_var)),
      ∑ j ∈ Finset.range (c.n_dof_indices (c.dot_var c.u_var)), massJacStep c qp i j

/-! ## Spec-side formulas (written from the spec/claim words, for comparison
with the code definitions) -/

/-- The spec's interpolated displacement-gradient tensor: row `k` is the
gradient of the `k`-th displacement component's variable. -/
def specGradU (c : Ctx) (qp k l : ℕ) : ℚ :=
  c.interior_gradient (compVar c k) qp l

/-- The spec's stress formula
`τ(i,α) = Σ_{k,l} elasticity(i,α,k,l) · ∇U(k,l)` over the active
dimensions. -/
def specTau (c : Ctx) (qp i alpha : ℕ) : ℚ :=
  ∑ k ∈ Finset.range c.dim, ∑ l ∈ Finset.range c.dim,
    elasticity_tensor i alpha k l * specGradU c qp k l

/-- The per-element interior residual increment asserted by claim C1, written
from the claim words: per quadrature point,
`(Σ_α τ(comp,α)·∇φ_i(α) − bodyforce(comp)·φ_i)·JxW[qp]`, the body-force term
counted once. -/
def claimResDelta (c : Ctx) (comp i : ℕ) : ℚ :=
  ∑ qp ∈ Finset.range c.n_elem_qp,
    ((∑ alpha ∈ Finset.range c.dim,
        specTau c qp comp alpha * c.elem_grad_phi c.u_var i qp alpha) -
      body_force comp * c.elem_phi c.u_var i qp) * c.elem_JxW c.u_var qp

/-! ## Concrete instances used by witnesses and counterexamples -/

/-- A concrete 3-dimensional context: variables 0,1,2, identity rate-variable
mapping, one quadrature point, one local dof, `φ ≡ 1`, `∇φ ≡ 0`, `JxW ≡ 1`,
zero interpolated displacement gradient, unit acceleration and unit scale
factors, face normal `(0,0,1)`, every boundary id present on the side. -/
def ctxW : Ctx where
  dim := 3
  u_var := 0
  v_var := 1
  w_var := 2
  dot_var := fun v => v
  n_dof_indices := fun _ => 1
  n_elem_qp := 1
  n_side_qp := 1
  elem_JxW := fun _ _ => 1
  elem_phi := fun _ _ _ => 1
  elem_grad_phi := fun _ _ _ _ => 0
  side_JxW := fun _ _ => 1
  side_phi := fun _ _ _ => 1
  side_normals := fun _ _ k => if k = 2 then 1 else 0
  interior_gradient := fun _ _ _ => 0
  interior_accel := fun _ _ => 1
  elem_solution_derivative := 1
  elem_solution_accel_derivative := 1
  has_side_boundary_id := fun _ => true
  traction_boundary_id := 6
  pressure_boundary_id := 7
  rho := 1

/-- The zero accumulation state (freshly zeroed residual and Jacobian
blocks). -/
def st0 : St := (fun _ _ => 0, fun _ _ _ _ => 0)

/-! ## Helper lemmas -/

theorem addV_eq (R : ResVecs) (v i : ℕ) (x : ℚ) :
    addV R v i x = R + sngV v i x := by
  funext a b
  simp only [addV, sngV, Pi.add_apply]
  split <;> simp

theorem addM_eq (K : JacMats) (r c i j : ℕ) (x : ℚ) :
    addM K r c i j x = K + sngM r c i j x := by
  funext a b e g
  simp only [addM, sngM, Pi.add_apply]
  split <;> simp

theorem iterN_succ {α : Type} (n : ℕ) (f : ℕ → α → α) (s : α) :
    iterN (n + 1) f s = f n (iterN n f s) := by
  simp [iterN, List.range_succ]

/-- A loop whose body adds a state-independent contribution `d k` at step `k`
adds the sum of the contributions. -/
theorem iterN_eq_add_sum {M : Type} [AddCommMonoid M] (f : ℕ → M → M) (d : ℕ → M)
    (h : ∀ k s, f k s = s + d k) :
    ∀ (n : ℕ) (s : M), iterN n f s = s + ∑ k ∈ Finset.range n, d k := by
  intro n
  induction n with
  | zero => intro s; simp [iterN]
  | succ m ih =>
    intro s
    rw [iterN_succ, ih, h, Finset.sum_range_succ, add_assoc]

theorem sum_mk {A B : Type} [AddCommMonoid A] [AddCommMonoid B] (s : Finset ℕ)
    (f : ℕ → A) (g : ℕ → B) :
    ∑ k ∈ s, ((f k, g k) : A × B) = (∑ k ∈ s, f k, ∑ k ∈ s, g k) :=
  (prod_mk_sum s f g).symm

theorem sum_ite_push {P : Prop} [Decidable P] (s : Finset ℕ) (f : ℕ → ℚ) :
    (∑ k ∈ s, if P then f k else 0) = if P then ∑ k ∈ s, f k else 0 := by
  split_ifs <;> simp

theorem sum_ite_pick {n : ℕ} {b : ℕ} (f : ℕ → ℚ) (hb : b < n) :
    (∑ k ∈ Finset.range n, if b = k then f k else 0) = f b := by
  rw [Finset.sum_ite_eq]
  simp [hb]

/-! ## Structural characterisation of the loop bodies -/

theorem resBody_eq (c : Ctx) (qp i alpha : ℕ) (s : St) :
    resBody c qp i alpha s = s + (resDelta c qp i alpha, 0) := by
  simp only [resBody, resDelta]
  split_ifs with h1 h2 h2 <;>
    refine Prod.ext ?_ ?_ <;>
    simp [addV_eq, Prod.fst_add, Prod.snd_add] <;> abel

theorem jacBody_eq (c : Ctx) (qp i alpha j beta : ℕ) (s : St) :
    jacBody c qp i alpha j beta s = s + (0, jacDelta c qp i alpha j beta) := by
  simp only [jacBody, jacDelta]
  split_ifs with h1 h2 h2 <;>
    refine Prod.ext ?_ ?_ <;>
    simp [addM_eq, Prod.fst_add, Prod.snd_add] <;> abel

theorem alphaBody_eq (c : Ctx) (rb : Bool) (qp i alpha : ℕ) (s : St) :
    alphaBody c rb qp i alpha s =
      s + (resDelta c qp i alpha, if rb then alphaJacDelta c qp i alpha else 0) := by
  cases rb with
  | false => simp [alphaBody, resBody_eq]
  | true =>
    have hβ : ∀ (j : ℕ) (t : St),
        iterN c.dim (fun beta t2 => jacBody c qp i alpha j beta t2) t =
          t + ((0 : ResVecs), ∑ beta ∈ Finset.range c.dim, jacDelta c qp i alpha j beta) := by
      intro j t
      rw [iterN_eq_add_sum _ (fun beta => ((0 : ResVecs), jacDelta c qp i alpha j beta))
        (fun k u => jacBody_eq c qp i alpha j k u) c.dim t, sum_mk]
      simp
    have hj : ∀ t : St,
        iterN (c.n_dof_indices c.u_var)
          (fun j t2 => iterN c.dim (fun beta t3 => jacBody c qp i alpha j beta t3) t2) t =
          t + ((0 : ResVecs), alphaJacDelta c qp i alpha) := by
      intro t
      rw [iterN_eq_add_sum _
        (fun j => ((0 : ResVecs), ∑ beta ∈ Finset.range c.dim, jacDelta c qp i alpha j beta))
        hβ (c.n_dof_indices c.u_var) t, sum_mk]
      simp [alphaJacDelta]
    simp only [alphaBody, if_true]
    rw [resBody_eq, hj, add_assoc]
    simp [Prod.mk_add_mk]

theorem element_time_derivative_eq (c : Ctx) (rb : Bool) (s : St) :
    element_time_derivative c rb s =
      (rb, s + (interiorResDelta c, if rb then interiorJacDelta c else 0)) := by
  have hα : ∀ (qp i : ℕ) (t : St),
      iterN c.dim (fun alpha t3 => alphaBody c rb qp i alpha t3) t =
        t + (∑ alpha ∈ Finset.range c.dim, resDelta c qp i alpha,
          if rb then ∑ alpha ∈ Finset.range c.dim, alphaJacDelta c qp i alpha else 0) := by
    intro qp i t
    rw [iterN_eq_add_sum _
      (fun alpha => (resDelta c qp i alpha, if rb then alphaJacDelta c qp i alpha else 0))
      (fun k u => alphaBody_eq c rb qp i k u) c.dim t, sum_mk]
    cases rb <;> simp
  have hi : ∀ (qp : ℕ) (t : St),
      iterN (c.n_dof_indices c.u_var)
        (fun i t2 => iterN c.dim (fun alpha t3 => alphaBody c rb qp i alpha t3) t2) t =
        t + (∑ i ∈ Finset.range (c.n_dof_indices c.u_var),
              ∑ alpha ∈ Finset.range c.dim, resDelta c qp i alpha,
            if rb then
              ∑ i ∈ Finset.range (c.n_dof_indices c.u_var),
                ∑ alpha ∈ Finset.range c.dim, alphaJacDelta c qp i alpha
            else 0) := by
    intro qp t
    rw [iterN_eq_add_sum _
      (fun i => (∑ alpha ∈ Finset.range c.dim, resDelta c qp i alpha,
        if rb then ∑ alpha ∈ Finset.range c.dim, alphaJacDelta c qp i alpha else 0))
      (hα qp) (c.n_dof_indices c.u_var) t, sum_mk]
    cases rb <;> simp
  unfold element_time_derivative
  rw [iterN_eq_add_sum _
    (fun qp => (∑ i ∈ Finset.range (c.n_dof_indices c.u_var),
        ∑ alpha ∈ Finset.range c.dim, resDelta c qp i alpha,
      if rb then
        ∑ i ∈ Finset.range (c.n_dof_indices c.u_var),
          ∑ alpha ∈ Finset.range c.dim, alphaJacDelta c qp i alpha
      else 0))
    hi c.n_elem_qp s, sum_mk]
  cases rb <;> simp [interiorResDelta, interiorJacDelta]

theorem sideBody_eq (c : Ctx) (qp i : ℕ) (s : St) :
    sideBody c qp i s = s + (sideDelta c qp i, 0) := by
  simp only [sideBody, sideDelta]
  split_ifs with h1 h2 h2 <;>
    refine Prod.ext ?_ ?_ <;>
    simp [addV_eq, Prod.fst_add, Prod.snd_add] <;> abel

theorem side_time_derivative_eq (c : Ctx) (rb : Bool) (s : St) :
    side_time_derivative c rb s =
      (rb,
        if c.has_side_boundary_id c.traction_boundary_id ||
            c.has_side_boundary_id c.pressure_boundary_id then
          s + (sideResDelta c, 0)
        else s) := by
  unfold side_time_derivative
  split_ifs with h
  · have hi : ∀ (qp : ℕ) (t : St),
        iterN (c.n_dof_indices c.u_var) (fun i t2 => sideBody c qp i t2) t =
          t + (∑ i ∈ Finset.range (c.n_dof_indices c.u_var), sideDelta c qp i, 0) := by
      intro qp t
      rw [iterN_eq_add_sum _ (fun i => (sideDelta c qp i, (0 : JacMats)))
        (fun k u => sideBody_eq c qp k u) (c.n_dof_indices c.u_var) t, sum_mk]
      simp
    rw [iterN_eq_add_sum _
      (fun qp => (∑ i ∈ Finset.range (c.n_dof_indices c.u_var), sideDelta c qp i,
        (0 : JacMats)))
      hi c.n_side_qp s, sum_mk]
    simp [sideResDelta]
  · rfl

theorem massResBody_eq (c : Ctx) (qp i : ℕ) (s : St) :
    massResBody c qp i s = s + (massDelta c qp i, 0) := by
  simp only [massResBody, massDelta]
  split_ifs with h1 h2 h2 <;>
    refine Prod.ext ?_ ?_ <;>
    simp [addV_eq, Prod.fst_add, Prod.snd_add] <;> abel

theorem massJacBody_eq (c : Ctx) (qp i j : ℕ) (s : St) :
    massJacBody c qp i j s = s + (0, massJacStep c qp i j) := by
  simp only [massJacBody, massJacStep]
  split_ifs with h1 h2 h2 <;>
    refine Prod.ext ?_ ?_ <;>
    simp [addM_eq, Prod.fst_add, Prod.snd_add] <;> abel

theorem mass_residual_eq (c : Ctx) (rb : Bool) (s : St) :
    mass_residual c rb s =
      (rb, s + (massResDelta c, if rb then massJacDelta c else 0)) := by
  have hbody : ∀ (qp i : ℕ) (t : St),
      (let t3 := massResBody c qp i t
        if rb then
          iterN (c.n_dof_indices (c.dot_var c.u_var))
            (fun j t4 => massJacBody c qp i j t4) t3
        else t3) =
        t + (massDelta c qp i,
          if rb then
            ∑ j ∈ Finset.range (c.n_dof_indices (c.dot_var c.u_var)), massJacStep c qp i j
          else 0) := by
    intro qp i t
    cases rb with
    | false => simp [massResBody_eq]
    | true =>
      simp only [if_true]
      rw [massResBody_eq,
        iterN_eq_add_sum _ (fun j => ((0 : ResVecs), massJacStep c qp i j))
          (fun k u => massJacBody_eq c qp i k u)
          (c.n_dof_indices (c.dot_var c.u_var)) _, sum_mk]
      simp [add_assoc, Prod.mk_add_mk]
  have hi : ∀ (qp : ℕ) (t : St),
      iterN (c.n_dof_indices (c.dot_var c.u_var))
        (fun i t2 =>
          let t3 := massResBody c qp i t2
          if rb then
            iterN (c.n_dof_indices (c.dot_var c.u_var))
              (fun j t4 => massJacBody c qp i j t4) t3
          else t3) t =
        t + (∑ i ∈ Finset.range (c.n_dof_indices (c.dot_var c.u_var)), massDelta c qp i,
          if rb then
            ∑ i ∈ Finset.range (c.n_dof_indices (c.dot_var c.u_var)),
              ∑ j ∈ Finset.range (c.n_dof_indices (c.dot_var c.u_var)), massJacStep c qp i j
          else 0) := by
    intro qp t
    rw [iterN_eq_add_sum _
      (fun i => (massDelta c qp i,
        if rb then
          ∑ j ∈ Finset.range (c.n_dof_indices (c.dot_var c.u_var)), massJacStep c qp i j
        else 0))
      (hbody qp) (c.n_dof_indices (c.dot_var c.u_var)) t, sum_mk]
    cases rb <;> simp
  unfold mass_residual
  rw [iterN_eq_add_sum _
    (fun qp => (∑ i ∈ Finset.range (c.n_dof_indices (c.dot_var c.u_var)), massDelta c qp i,
      if rb then
        ∑ i ∈ Finset.range (c.n_dof_indices (c.dot_var c.u_var)),
          ∑ j ∈ Finset.range (c.n_dof_indices (c.dot_var c.u_var)), massJacStep c qp i j
      else 0))
    hi c.n_elem_qp s, sum_mk]
  cases rb <;> simp [massResDelta, massJacDelta]

/-! ## Reading a single block entry out of the contribution functions

The residual deltas all have the shape "one guarded single per active
component, stored at the component's rate variable"; under the assumption
that active rate variables are pairwise distinct (which the claims
presuppose by speaking of "the block of component c"), evaluating at the rate
variable of an active component picks out exactly that component's term. -/

theorem triple_block (c : Ctx)
    (hdot : ∀ a b, a < c.dim → b < c.dim → compDot c a = compDot c b → a = b)
    {comp : ℕ} (hcomp : comp < c.dim) (hdim : c.dim ≤ 3) (i i0 : ℕ) (x : ℕ → ℚ) :
    (sngV (compDot c 0) i (x 0) +
      (if 1 < c.dim then sngV (compDot c 1) i (x 1) else 0) +
      (if 2 < c.dim then sngV (compDot c 2) i (x 2) else 0)) (compDot c comp) i0 =
      if i0 = i then x comp else 0 := by
  have hne : ∀ a b, a < c.dim → b < c.dim → a ≠ b → compDot c a ≠ compDot c b :=
    fun a b ha hb hab h => hab (hdot a b ha hb h)
  have h3 : comp < 3 := lt_of_lt_of_le hcomp hdim
  simp only [Pi.add_apply, ite_apply, Pi.zero_apply, sngV]
  interval_cases comp
  · by_cases h1 : 1 < c.dim <;> by_cases h2 : 2 < c.dim
    · simp [h1, h2, hne 0 1 hcomp h1 (by omega), hne 0 2 hcomp h2 (by omega)]
    · simp [h1, h2, hne 0 1 hcomp h1 (by omega)]
    · omega
    · simp [h1, h2]
  · by_cases h2 : 2 < c.dim
    · simp [hcomp, h2, hne 1 0 hcomp (by omega) (by omega),
        hne 1 2 hcomp h2 (by omega)]
    · simp [hcomp, h2, hne 1 0 hcomp (by omega) (by omega)]
  · simp [hcomp, (by omega : 1 < c.dim), hne 2 0 hcomp (by omega) (by omega),
      hne 2 1 hcomp (by omega) (by omega)]

theorem nine_block (c : Ctx)
    (hdot : ∀ a b, a < c.dim → b < c.dim → compDot c a = compDot c b → a = b)
    (hvar : ∀ a b, a < c.dim → b < c.dim → compVar c a = compVar c b → a = b)
    {comp bcomp : ℕ} (hcomp : comp < c.dim) (hb : bcomp < c.dim) (hdim : c.dim ≤ 3)
    (i j i0 j0 : ℕ) (x : ℕ → ℕ → ℚ) :
    (sngM (compDot c 0) (compVar c 0) i j (x 0 0) +
      (if 1 < c.dim then
        sngM (compDot c 0) (compVar c 1) i j (x 0 1) +
          sngM (compDot c 1) (compVar c 0) i j (x 1 0) +
          sngM (compDot c 1) (compVar c 1) i j (x 1 1)
       else 0) +
      (if 2 < c.dim then
        sngM (compDot c 0) (compVar c 2) i j (x 0 2) +
          sngM (compDot c 1) (compVar c 2) i j (x 1 2) +
          sngM (compDot c 2) (compVar c 0) i j (x 2 0) +
          sngM (compDot c 2) (compVar c 1) i j (x 2 1) +
          sngM (compDot c 2) (compVar c 2) i j (x 2 2)
       else 0)) (compDot c comp) (compVar c bcomp) i0 j0 =
      if i0 = i ∧ j0 = j then x comp bcomp else 0 := by
  have dne : ∀ a b, a < c.dim → b < c.dim → a ≠ b →
      (compDot c a = compDot c b) = False :=
    fun a b ha hb2 hne => eq_false (fun h => hne (hdot a b ha hb2 h))
  have vne : ∀ a b, a < c.dim → b < c.dim → a ≠ b →
      (compVar c a = compVar c b) = False :=
    fun a b ha hb2 hne => eq_false (fun h => hne (hvar a b ha hb2 h))
  have h0 : 0 < c.dim := by omega
  have h3 : comp < 3 := by omega
  have hb3 : bcomp < 3 := by omega
  simp only [Pi.add_apply, ite_apply, Pi.zero_apply, sngM]
  interval_cases comp <;> interval_cases bcomp <;>
    by_cases h1 : 1 < c.dim <;> by_cases h2 : 2 < c.dim <;>
    first
      | omega
      | simp [dne, vne, h0, hcomp, hb, h1, h2]

theorem diag_block (c : Ctx)
    (hdot : ∀ a b, a < c.dim → b < c.dim → compDot c a = compDot c b → a = b)
    {comp bcomp : ℕ} (hcomp : comp < c.dim) (hb : bcomp < c.dim) (hdim : c.dim ≤ 3)
    (i j i0 j0 : ℕ) (x : ℚ) :
    (sngM (compDot c 0) (compDot c 0) i j x +
      (if 1 < c.dim then sngM (compDot c 1) (compDot c 1) i j x else 0) +
      (if 2 < c.dim then sngM (compDot c 2) (compDot c 2) i j x else 0))
        (compDot c comp) (compDot c bcomp) i0 j0 =
      if comp = bcomp ∧ i0 = i ∧ j0 = j then x else 0 := by
  have dne : ∀ a b, a < c.dim → b < c.dim → a ≠ b →
      (compDot c a = compDot c b) = False :=
    fun a b ha hb2 hne => eq_false (fun h => hne (hdot a b ha hb2 h))
  have h0 : 0 < c.dim := by omega
  have h3 : comp < 3 := by omega
  have hb3 : bcomp < 3 := by omega
  simp only [Pi.add_apply, ite_apply, Pi.zero_apply, sngM]
  interval_cases comp <;> interval_cases bcomp <;>
    by_cases h1 : 1 < c.dim <;> by_cases h2 : 2 < c.dim <;>
    first
      | omega
      | simp [dne, h0, hcomp, hb, h1, h2]

theorem resDelta_block (c : Ctx)
    (hdot : ∀ a b, a < c.dim → b < c.dim → compDot c a = compDot c b → a = b)
    {comp : ℕ} (hcomp : comp < c.dim) (hdim : c.dim ≤ 3) (qp i alpha i0 : ℕ) :
    resDelta c qp i alpha (compDot c comp) i0 =
      if i0 = i then resTerm c comp qp i alpha else 0 :=
  triple_block c hdot hcomp hdim i i0 (fun k => resTerm c k qp i alpha)

theorem sideDelta_block (c : Ctx)
    (hdot : ∀ a b, a < c.dim → b < c.dim → compDot c a = compDot c b → a = b)
    {comp : ℕ} (hcomp : comp < c.dim) (hdim : c.dim ≤ 3) (qp i i0 : ℕ) :
    sideDelta c qp i (compDot c comp) i0 =
      if i0 = i then
        -(tractionAt c qp comp * c.side_phi c.u_var i qp * c.side_JxW c.u_var qp)
      else 0 :=
  triple_block c hdot hcomp hdim i i0
    (fun k => -(tractionAt c qp k * c.side_phi c.u_var i qp * c.side_JxW c.u_var qp))

theorem massDelta_block (c : Ctx)
    (hdot : ∀ a b, a < c.dim → b < c.dim → compDot c a = compDot c b → a = b)
    {comp : ℕ} (hcomp : comp < c.dim) (hdim : c.dim ≤ 3) (qp i i0 : ℕ) :
    massDelta c qp i (compDot c comp) i0 =
      if i0 = i then
        c.rho * c.interior_accel (compDot c comp) qp *
          c.elem_phi (c.dot_var c.u_var) i qp * c.elem_JxW (c.dot_var c.u_var) qp
      else 0 :=
  triple_block c hdot hcomp hdim i i0
    (fun k => c.rho * c.interior_accel (compDot c k) qp *
      c.elem_phi (c.dot_var c.u_var) i qp * c.elem_JxW (c.dot_var c.u_var) qp)

theorem jacDelta_block (c : Ctx)
    (hdot : ∀ a b, a < c.dim → b < c.dim → compDot c a = compDot c b → a = b)
    (hvar : ∀ a b, a < c.dim → b < c.dim → compVar c a = compVar c b → a = b)
    {comp bcomp : ℕ} (hcomp : comp < c.dim) (hb : bcomp < c.dim) (hdim : c.dim ≤ 3)
    (qp i alpha j beta i0 j0 : ℕ) :
    jacDelta c qp i alpha j beta (compDot c comp) (compVar c bcomp) i0 j0 =
      if i0 = i ∧ j0 = j then jacTerm c comp bcomp qp i alpha j beta else 0 :=
  nine_block c hdot hvar hcomp hb hdim i j i0 j0
    (fun r b => jacTerm c r b qp i alpha j beta)

theorem massJacStep_block (c : Ctx)
    (hdot : ∀ a b, a < c.dim → b < c.dim → compDot c a = compDot c b → a = b)
    {comp bcomp : ℕ} (hcomp : comp < c.dim) (hb : bcomp < c.dim) (hdim : c.dim ≤ 3)
    (qp i j i0 j0 : ℕ) :
    massJacStep c qp i j (compDot c comp) (compDot c bcomp) i0 j0 =
      if comp = bcomp ∧ i0 = i ∧ j0 = j then massJacTerm c qp i j else 0 :=
  diag_block c hdot hcomp hb hdim i j i0 j0 (massJacTerm c qp i j)

theorem grad_U_eq_spec (c : Ctx) {k : ℕ} (hk : k < c.dim) (hdim : c.dim ≤ 3)
    (qp l : ℕ) : grad_U c qp k l = specGradU c qp k l := by
  have h3 : k < 3 := by omega
  interval_cases k <;> simp [grad_U, specGradU, compVar, hk]

theorem tau_eq_spec (c : Ctx) {i alpha : ℕ} (hi : i < c.dim) (ha : alpha < c.dim)
    (hdim : c.dim ≤ 3) (qp : ℕ) : tau c qp i alpha = specTau c qp i alpha := by
  unfold tau specTau
  rw [if_pos ⟨hi, ha⟩]
  refine Finset.sum_congr rfl fun k hk => Finset.sum_congr rfl fun l _ => ?_
  rw [grad_U_eq_spec c (Finset.mem_range.mp hk) hdim qp l]

theorem interiorResDelta_block (c : Ctx)
    (hdot : ∀ a b, a < c.dim → b < c.dim → compDot c a = compDot c b → a = b)
    {comp i0 : ℕ} (hcomp : comp < c.dim) (hdim : c.dim ≤ 3)
    (hi0 : i0 < c.n_dof_indices c.u_var) :
    interiorResDelta c (compDot c comp) i0 =
      ∑ qp ∈ Finset.range c.n_elem_qp, ∑ alpha ∈ Finset.range c.dim,
        resTerm c comp qp i0 alpha := by
  unfold interiorResDelta
  simp only [Finset.sum_apply]
  refine Finset.sum_congr rfl fun qp _ => ?_
  have h1 : ∀ i ∈ Finset.range (c.n_dof_indices c.u_var),
      (∑ alpha ∈ Finset.range c.dim, resDelta c qp i alpha (compDot c comp) i0) =
        if i0 = i then ∑ alpha ∈ Finset.range c.dim, resTerm c comp qp i alpha else 0 := by
    intro i _
    rw [Finset.sum_congr rfl fun alpha _ =>
      resDelta_block c hdot hcomp hdim qp i alpha i0, sum_ite_push]
  rw [Finset.sum_congr rfl h1, sum_ite_pick _ hi0]

theorem sideResDelta_block (c : Ctx)
    (hdot : ∀ a b, a < c.dim → b < c.dim → compDot c a = compDot c b → a = b)
    {comp i0 : ℕ} (hcomp : comp < c.dim) (hdim : c.dim ≤ 3)
    (hi0 : i0 < c.n_dof_indices c.u_var) :
    sideResDelta c (compDot c comp) i0 =
      ∑ qp ∈ Finset.range c.n_side_qp,
        -(tractionAt c qp comp * c.side_phi c.u_var i0 qp * c.side_JxW c.u_var qp) := by
  unfold sideResDelta
  simp only [Finset.sum_apply]
  refine Finset.sum_congr rfl fun qp _ => ?_
  rw [Finset.sum_congr rfl fun i _ => sideDelta_block c hdot hcomp hdim qp i i0,
    sum_ite_pick _ hi0]

theorem massResDelta_block (c : Ctx)
    (hdot : ∀ a b, a < c.dim → b < c.dim → compDot c a = compDot c b → a = b)
    {comp i0 : ℕ} (hcomp : comp < c.dim) (hdim : c.dim ≤ 3)
    (hi0 : i0 < c.n_dof_indices (c.dot_var c.u_var)) :
    massResDelta c (compDot c comp) i0 =
      ∑ qp ∈ Finset.range c.n_elem_qp,
        c.rho * c.interior_accel (compDot c comp) qp *
          c.elem_phi (c.dot_var c.u_var) i0 qp * c.elem_JxW (c.dot_var c.u_var) qp := by
  unfold massResDelta
  simp only [Finset.sum_apply]
  refine Finset.sum_congr rfl fun qp _ => ?_
  rw [Finset.sum_congr rfl fun i _ => massDelta_block c hdot hcomp hdim qp i i0,
    sum_ite_pick _ hi0]

theorem interiorJacDelta_block (c : Ctx)
    (hdot : ∀ a b, a < c.dim → b < c.dim → compDot c a = compDot c b → a = b)
    (hvar : ∀ a b, a < c.dim → b < c.dim → compVar c a = compVar c b → a = b)
    {comp bcomp i0 j0 : ℕ} (hcomp : comp < c.dim) (hb : bcomp < c.dim)
    (hdim : c.dim ≤ 3) (hi0 : i0 < c.n_dof_indices c.u_var)
    (hj0 : j0 < c.n_dof_indices c.u_var) :
    interiorJacDelta c (compDot c comp) (compVar c bcomp) i0 j0 =
      ∑ qp ∈ Finset.range c.n_elem_qp, ∑ alpha ∈ Finset.range c.dim,
        ∑ beta ∈ Finset.range c.dim, jacTerm c comp bcomp qp i0 alpha j0 beta := by
  unfold interiorJacDelta alphaJacDelta
  simp only [Finset.sum_apply]
  refine Finset.sum_congr rfl fun qp _ => ?_
  have hβ : ∀ i alpha j, (∑ beta ∈ Finset.range c.dim,
      jacDelta c qp i alpha j beta (compDot c comp) (compVar c bcomp) i0 j0) =
        if i0 = i then
          (if j0 = j then
            ∑ beta ∈ Finset.range c.dim, jacTerm c comp bcomp qp i alpha j beta
           else 0)
        else 0 := by
    intro i alpha j
    rw [Finset.sum_congr rfl fun beta _ =>
      jacDelta_block c hdot hvar hcomp hb hdim qp i alpha j beta i0 j0, sum_ite_push]
    rw [ite_and]
  have hj : ∀ i alpha, (∑ j ∈ Finset.range (c.n_dof_indices c.u_var),
      ∑ beta ∈ Finset.range c.dim,
        jacDelta c qp i alpha j beta (compDot c comp) (compVar c bcomp) i0 j0) =
        if i0 = i then
          ∑ beta ∈ Finset.range c.dim, jacTerm c comp bcomp qp i alpha j0 beta
        else 0 := by
    intro i alpha
    rw [Finset.sum_congr rfl fun j _ => hβ i alpha j, sum_ite_push]
    by_cases hii : i0 = i
    · rw [if_pos hii, if_pos hii, sum_ite_pick _ hj0]
    · rw [if_neg hii, if_neg hii]
  have hi : ∀ i, (∑ alpha ∈ Finset.range c.dim,
      ∑ j ∈ Finset.range (c.n_dof_indices c.u_var), ∑ beta ∈ Finset.range c.dim,
        jacDelta c qp i alpha j beta (compDot c comp) (compVar c bcomp) i0 j0) =
        if i0 = i then
          ∑ alpha ∈ Finset.range c.dim, ∑ beta ∈ Finset.range c.dim,
            jacTerm c comp bcomp qp i alpha j0 beta
        else 0 := by
    intro i
    rw [Finset.sum_congr rfl fun alpha _ => hj i alpha, sum_ite_push]
  rw [Finset.sum_congr rfl fun i _ => hi i, sum_ite_pick _ hi0]

theorem massJacDelta_block (c : Ctx)
    (hdot : ∀ a b, a < c.dim → b < c.dim → compDot c a = compDot c b → a = b)
    {comp bcomp i0 j0 : ℕ} (hcomp : comp < c.dim) (hb : bcomp < c.dim)
    (hdim : c.dim ≤ 3) (hi0 : i0 < c.n_dof_indices (c.dot_var c.u_var))
    (hj0 : j0 < c.n_dof_indices (c.dot_var c.u_var)) :
    massJacDelta c (compDot c comp) (compDot c bcomp) i0 j0 =
      if comp = bcomp then
        ∑ qp ∈ Finset.range c.n_elem_qp, massJacTerm c qp i0 j0
      else 0 := by
  unfold massJacDelta
  simp only [Finset.sum_apply]
  have hj : ∀ qp i, (∑ j ∈ Finset.range (c.n_dof_indices (c.dot_var c.u_var)),
      massJacStep c qp i j (compDot c comp) (compDot c bcomp) i0 j0) =
        if comp = bcomp then (if i0 = i then massJacTerm c qp i j0 else 0) else 0 := by
    intro qp i
    rw [Finset.sum_congr rfl fun j _ => massJacStep_block c hdot hcomp hb hdim qp i j i0 j0]
    simp only [ite_and]
    rw [sum_ite_push]
    by_cases hcb : comp = bcomp
    · rw [if_pos hcb, if_pos hcb, sum_ite_push]
      by_cases hii : i0 = i
      · rw [if_pos hii, if_pos hii, sum_ite_pick _ hj0]
      · rw [if_neg hii, if_neg hii]
    · rw [if_neg hcb, if_neg hcb]
  have hi : ∀ qp, (∑ i ∈ Finset.range (c.n_dof_indices (c.dot_var c.u_var)),
      ∑ j ∈ Finset.range (c.n_dof_indices (c.dot_var c.u_var)),
        massJacStep c qp i j (compDot c comp) (compDot c bcomp) i0 j0) =
        if comp = bcomp then massJacTerm c qp i0 j0 else 0 := by
    intro qp
    rw [Finset.sum_congr rfl fun i _ => hj qp i, sum_ite_push]
    by_cases hcb : comp = bcomp
    · rw [if_pos hcb, if_pos hcb, sum_ite_pick _ hi0]
    · rw [if_neg hcb, if_neg hcb]
  rw [Finset.sum_congr rfl fun qp _ => hi qp, sum_ite_push]

/-! ## Pointwise entry views of the three assemblers -/

theorem elem_res_entry (c : Ctx) (rb : Bool) (s : St) (a b : ℕ) :
    (element_time_derivative c rb s).2.1 a b = s.1 a b + interiorResDelta c a b := by
  rw [element_time_derivative_eq]
  rfl

theorem elem_jac_entry_true (c : Ctx) (s : St) (r cc i j : ℕ) :
    (element_time_derivative c true s).2.2 r cc i j =
      s.2 r cc i j + interiorJacDelta c r cc i j := by
  rw [element_time_derivative_eq]
  rfl

theorem elem_jac_false (c : Ctx) (s : St) :
    (element_time_derivative c false s).2.2 = s.2 := by
  rw [element_time_derivative_eq]
  simp

theorem side_res_entry (c : Ctx) (rb : Bool) (s : St) (a b : ℕ)
    (h : (c.has_side_boundary_id c.traction_boundary_id ||
      c.has_side_boundary_id c.pressure_boundary_id) = true) :
    (side_time_derivative c rb s).2.1 a b = s.1 a b + sideResDelta c a b := by
  rw [side_time_derivative_eq, if_pos h]
  rfl

theorem mass_res_entry (c : Ctx) (rb : Bool) (s : St) (a b : ℕ) :
    (mass_residual c rb s).2.1 a b = s.1 a b + massResDelta c a b := by
  rw [mass_residual_eq]
  rfl

theorem mass_jac_entry_true (c : Ctx) (s : St) (r cc i j : ℕ) :
    (mass_residual c true s).2.2 r cc i j = s.2 r cc i j + massJacDelta c r cc i j := by
  rw [mass_residual_eq]
  rfl

theorem mass_jac_false (c : Ctx) (s : St) :
    (mass_residual c false s).2.2 = s.2 := by
  rw [mass_residual_eq]
  simp

/-! ## Facts about the concrete context -/

theorem ctxW_hdot : ∀ a b, a < ctxW.dim → b < ctxW.dim →
    compDot ctxW a = compDot ctxW b → a = b := by
  intro a b ha hb h
  have ha3 : a < 3 := ha
  have hb3 : b < 3 := hb
  interval_cases a <;> interval_cases b <;> simp_all [compDot, compVar, ctxW]

theorem ctxW_hvar : ∀ a b, a < ctxW.dim → b < ctxW.dim →
    compVar ctxW a = compVar ctxW b → a = b := by
  intro a b ha hb h
  have ha3 : a < 3 := ha
  have hb3 : b < 3 := hb
  interval_cases a <;> interval_cases b <;> simp_all [compVar, ctxW]

/-- The value the code actually accumulates into the third residual block of
the concrete context `ctxW` (zero displacement gradient, `φ ≡ 1`,
`JxW ≡ 1`, one quadrature point, one dof): the body-force term fires once per
active dimension, giving 3. -/
theorem ctxW_block2_value :
    (element_time_derivative ctxW false st0).2.1 (compDot ctxW 2) 0 = 3 := by
  rw [elem_res_entry,
    interiorResDelta_block ctxW ctxW_hdot (by decide) (by decide) (by decide)]
  show st0.1 (compDot ctxW 2) 0 +
      (∑ qp ∈ Finset.range 1, ∑ alpha ∈ Finset.range 3, resTerm ctxW 2 qp 0 alpha) = 3
  have e1 : ∀ f : ℕ → ℚ, (∑ alpha ∈ Finset.range 3, f alpha) = f 0 + f 1 + f 2 := by
    intro f
    rw [show (3:ℕ) = 2 + 1 from rfl, Finset.sum_range_succ,
      show (2:ℕ) = 1 + 1 from rfl, Finset.sum_range_succ, Finset.sum_range_one]
  rw [Finset.sum_range_one, e1]
  norm_num [resTerm, ctxW, body_force, st0]

/-! ## Claim theorems -/

/-- **C3**: for all indices `i,j,k,l` in `0..2`, `elasticity_tensor` is a pure
function (a Lean function of its four arguments, by construction) equal to
`λ₁·δ(i,j)·δ(k,l) + λ₂·(δ(i,k)·δ(j,l) + δ(i,l)·δ(j,k))` with
`λ₁ = Eν/((1+ν)(1−2ν))` and `λ₂ = E/(2(1+ν))` evaluated at ν = 0.3,
E = 100. -/
theorem C3_elasticity_tensor_spec (i j k l : ℕ)
    (hi : i < 3) (hj : j < 3) (hk : k < 3) (hl : l < 3) :
    elasticity_tensor i j k l = specElasticity 0.3 100 i j k l := by
  simp only [elasticity_tensor, specElasticity]
  norm_num

/-- Witness for C3 at `(i,j,k,l) = (0,1,0,1)`. -/
theorem C3_witness :
    ((0:ℕ) < 3 ∧ (1:ℕ) < 3) ∧
      elasticity_tensor 0 1 0 1 = specElasticity 0.3 100 0 1 0 1 :=
  ⟨⟨by decide, by decide⟩,
    C3_elasticity_tensor_spec 0 1 0 1 (by decide) (by decide) (by decide) (by decide)⟩

/-- **C5**: after variable registration, for every active dimension
`d ∈ {1,2,3}`: at `d = 1` the V-variable index equals the U-variable index;
whenever `d < 3` the W-variable index equals the V-variable index; hence at
`d = 1` the W-variable index also equals the U-variable index. -/
theorem C5_variable_aliasing (ids : BoundaryIds) (dim n0 : ℕ) (all_ids : Finset ℤ)
    (h1 : 1 ≤ dim) (h3 : dim ≤ 3) :
    ((dim = 1 →
        (init_data ids dim n0 all_ids).v_var = (init_data ids dim n0 all_ids).u_var) ∧
      (dim < 3 →
        (init_data ids dim n0 all_ids).w_var = (init_data ids dim n0 all_ids).v_var) ∧
      (dim = 1 →
        (init_data ids dim n0 all_ids).w_var = (init_data ids dim n0 all_ids).u_var)) := by
  refine ⟨fun h => ?_, fun h => ?_, fun h => ?_⟩ <;>
    simp only [init_data] <;> split_ifs <;> omega

/-- Witness for C5 at `dim = 2`. -/
theorem C5_witness :
    ((1:ℕ) ≤ 2 ∧ (2:ℕ) ≤ 3) ∧
      ((2 = 1 → (init_data ⟨0, 1, 2, 3⟩ 2 0 ∅).v_var = (init_data ⟨0, 1, 2, 3⟩ 2 0 ∅).u_var) ∧
        (2 < 3 → (init_data ⟨0, 1, 2, 3⟩ 2 0 ∅).w_var = (init_data ⟨0, 1, 2, 3⟩ 2 0 ∅).v_var) ∧
        (2 = 1 → (init_data ⟨0, 1, 2, 3⟩ 2 0 ∅).w_var = (init_data ⟨0, 1, 2, 3⟩ 2 0 ∅).u_var)) :=
  ⟨⟨by decide, by decide⟩,
    C5_variable_aliasing ⟨0, 1, 2, 3⟩ 2 0 ∅ (by decide) (by decide)⟩

/-- **C8**: `side_time_derivative` never writes any Jacobian entry — its
contribution is independent of the unknowns, so its Jacobian contribution is
identically zero even when a Jacobian was requested — and it hands the
request flag back unchanged (reporting the zero contribution as computed). -/
theorem C8_side_no_jacobian (c : Ctx) (rb : Bool) (s : St) :
    (side_time_derivative c rb s).2.2 = s.2 ∧ (side_time_derivative c rb s).1 = rb := by
  rw [side_time_derivative_eq]
  constructor
  · split_ifs <;> simp
  · rfl

/-- **C9**: if the mesh's global (cross-partition-unioned) boundary-id set is
empty, `init_data` adds no constraint to the constraint table: the single
unconditionally registered generic Dirichlet boundary has an empty boundary-id
set (so it constrains nothing) and the u- and v-specific ones are skipped; the
function is total so this configuration is not an error. -/
theorem C9_empty_boundary_no_constraints (ids : BoundaryIds) (dim n0 : ℕ)
    (all_ids : Finset ℤ) (h : all_ids = ∅) :
    constrainedPairs (init_data ids dim n0 all_ids) = ∅ := by
  subst h
  simp [init_data, constrainedPairs]

/-- Witness for C9 on a concrete empty boundary-id set. -/
theorem C9_witness :
    ((∅ : Finset ℤ) = ∅) ∧ constrainedPairs (init_data ⟨7, 8, 9, 10⟩ 3 0 ∅) = ∅ :=
  ⟨rfl, C9_empty_boundary_no_constraints ⟨7, 8, 9, 10⟩ 3 0 ∅ rfl⟩

/-- **C1** (amended): for every element, at each quadrature point `qp`, for
each local test function `i` and each active component `comp`,
`element_time_derivative` adds to residual block `comp` (indexed by the rate
variable) the amount
`Σ_α (τ(comp,α)·∇φ_i(α) − bodyforce(comp)·φ_i)·JxW[qp]` — the body-force term
is accumulated once per active dimension `α`, not once per quadrature point —
with stress `τ(i,α) = Σ_{k,l} elasticity(i,α,k,l)·∇U(k,l)` over the active
dimensions and `bodyforce = (0,0,−1)`. -/
theorem C1_interior_residual (c : Ctx) (rb : Bool) (s : St)
    (hdot : ∀ a b, a < c.dim → b < c.dim → compDot c a = compDot c b → a = b)
    (hdim : c.dim ≤ 3) {comp i0 : ℕ} (hcomp : comp < c.dim)
    (hi0 : i0 < c.n_dof_indices c.u_var) :
    (element_time_derivative c rb s).2.1 (compDot c comp) i0 =
      s.1 (compDot c comp) i0 +
        ∑ qp ∈ Finset.range c.n_elem_qp, ∑ alpha ∈ Finset.range c.dim,
          (specTau c qp comp alpha * c.elem_grad_phi c.u_var i0 qp alpha -
            body_force comp * c.elem_phi c.u_var i0 qp) * c.elem_JxW c.u_var qp := by
  rw [elem_res_entry, interiorResDelta_block c hdot hcomp hdim hi0]
  congr 1
  refine Finset.sum_congr rfl fun qp _ => Finset.sum_congr rfl fun alpha ha => ?_
  unfold resTerm
  rw [tau_eq_spec c hcomp (Finset.mem_range.mp ha) hdim qp]

/-- Witness for C1 in the concrete 3-D context, component 1, dof 0. -/
theorem C1_witness :
    ((∀ a b, a < ctxW.dim → b < ctxW.dim → compDot ctxW a = compDot ctxW b → a = b) ∧
        ctxW.dim ≤ 3 ∧ 1 < ctxW.dim ∧ 0 < ctxW.n_dof_indices ctxW.u_var) ∧
      (element_time_derivative ctxW true st0).2.1 (compDot ctxW 1) 0 =
        st0.1 (compDot ctxW 1) 0 +
          ∑ qp ∈ Finset.range ctxW.n_elem_qp, ∑ alpha ∈ Finset.range ctxW.dim,
            (specTau ctxW qp 1 alpha * ctxW.elem_grad_phi ctxW.u_var 0 qp alpha -
              body_force 1 * ctxW.elem_phi ctxW.u_var 0 qp) * ctxW.elem_JxW ctxW.u_var qp :=
  ⟨⟨ctxW_hdot, by decide, by decide, by decide⟩,
    C1_interior_residual ctxW true st0 ctxW_hdot (by decide) (by decide) (by decide)⟩

/-- **C1 counterexample**: in the concrete context (3-D, one quadrature point,
one local dof, `φ ≡ 1`, `∇φ ≡ 0`, `JxW ≡ 1`, zero displacement gradient) the
code adds 3 to residual block 2 (the body-force term fires once per active
dimension), while the increment claimed by C1 —
`(Σ_α τ(2,α)·∇φ_i(α) − bodyforce(2)·φ_i)·JxW[qp]` per quadrature point — is 1. -/
theorem C1_counterexample :
    ¬ ((element_time_derivative ctxW false st0).2.1 (compDot ctxW 2) 0 =
        st0.1 (compDot ctxW 2) 0 + claimResDelta ctxW 2 0) := by
  intro h
  rw [ctxW_block2_value] at h
  have hclaim : claimResDelta ctxW 2 0 = 1 := by
    show (∑ qp ∈ Finset.range 1,
      ((∑ alpha ∈ Finset.range 3,
          specTau ctxW qp 2 alpha * ctxW.elem_grad_phi ctxW.u_var 0 qp alpha) -
        body_force 2 * ctxW.elem_phi ctxW.u_var 0 qp) * ctxW.elem_JxW ctxW.u_var qp) = 1
    rw [Finset.sum_range_one]
    norm_num [ctxW, body_force]
  rw [hclaim] at h
  have hst : st0.1 (compDot ctxW 2) 0 = 0 := rfl
  rw [hst] at h
  norm_num at h

/-- **C4** (amended): if the interpolated displacement gradient is zero at
every quadrature point, the interior residual contribution reduces to the
(displacement-independent) body-force term: block `comp` changes by
`Σ_qp Σ_α (−bodyforce(comp)·φ_i)·JxW[qp]`; in particular the contribution is
exactly zero for every active component other than the third (`comp ≠ 2`),
but not in general for component 2 in 3-D, which keeps the gravity term. -/
theorem C4_zero_gradient_residual (c : Ctx) (rb : Bool) (s : St)
    (hdot : ∀ a b, a < c.dim → b < c.dim → compDot c a = compDot c b → a = b)
    (hdim : c.dim ≤ 3) {comp i0 : ℕ} (hcomp : comp < c.dim)
    (hi0 : i0 < c.n_dof_indices c.u_var)
    (hgrad : ∀ v qp l, c.interior_gradient v qp l = 0) :
    ((element_time_derivative c rb s).2.1 (compDot c comp) i0 =
        s.1 (compDot c comp) i0 +
          ∑ qp ∈ Finset.range c.n_elem_qp, ∑ alpha ∈ Finset.range c.dim,
            -(body_force comp * c.elem_phi c.u_var i0 qp) * c.elem_JxW c.u_var qp) ∧
      (comp ≠ 2 →
        (element_time_derivative c rb s).2.1 (compDot c comp) i0 =
          s.1 (compDot c comp) i0) := by
  have htau : ∀ qp i j, tau c qp i j = 0 := by
    intro qp i j
    unfold tau
    split
    · refine Finset.sum_eq_zero fun k _ => Finset.sum_eq_zero fun l _ => ?_
      unfold grad_U
      split_ifs <;> simp [hgrad]
    · rfl
  have hmain : (element_time_derivative c rb s).2.1 (compDot c comp) i0 =
      s.1 (compDot c comp) i0 +
        ∑ qp ∈ Finset.range c.n_elem_qp, ∑ alpha ∈ Finset.range c.dim,
          -(body_force comp * c.elem_phi c.u_var i0 qp) * c.elem_JxW c.u_var qp := by
    rw [elem_res_entry, interiorResDelta_block c hdot hcomp hdim hi0]
    congr 1
    refine Finset.sum_congr rfl fun qp _ => Finset.sum_congr rfl fun alpha _ => ?_
    unfold resTerm
    rw [htau]
    ring
  refine ⟨hmain, fun hne => ?_⟩
  rw [hmain]
  have hbf : body_force comp = 0 := by simp [body_force, hne]
  simp [hbf]

/-- Witness for C4 in the concrete 3-D context (which has zero interpolated
displacement gradient), component 0, dof 0. -/
theorem C4_witness :
    ((∀ a b, a < ctxW.dim → b < ctxW.dim → compDot ctxW a = compDot ctxW b → a = b) ∧
        ctxW.dim ≤ 3 ∧ 0 < ctxW.dim ∧ 0 < ctxW.n_dof_indices ctxW.u_var ∧
        (∀ v qp l, ctxW.interior_gradient v qp l = 0)) ∧
      (((element_time_derivative ctxW true st0).2.1 (compDot ctxW 0) 0 =
          st0.1 (compDot ctxW 0) 0 +
            ∑ qp ∈ Finset.range ctxW.n_elem_qp, ∑ alpha ∈ Finset.range ctxW.dim,
              -(body_force 0 * ctxW.elem_phi ctxW.u_var 0 qp) * ctxW.elem_JxW ctxW.u_var qp) ∧
        ((0:ℕ) ≠ 2 →
          (element_time_derivative ctxW true st0).2.1 (compDot ctxW 0) 0 =
            st0.1 (compDot ctxW 0) 0)) :=
  ⟨⟨ctxW_hdot, by decide, by decide, by decide, fun v qp l => rfl⟩,
    C4_zero_gradient_residual ctxW true st0 ctxW_hdot (by decide) (by decide) (by decide)
      (fun v qp l => rfl)⟩

/-- **C4 counterexample**: the concrete context has `∇U ≡ 0` at every
quadrature point, yet the interior residual contribution to block 2 is 3, not
zero: the claim "interior residual contribution is exactly zero for every dof
of every active component" fails on the third component in 3-D. -/
theorem C4_counterexample :
    (∀ v qp l, ctxW.interior_gradient v qp l = 0) ∧
      ¬ ((element_time_derivative ctxW false st0).2.1 (compDot ctxW 2) 0 =
          st0.1 (compDot ctxW 2) 0) := by
  refine ⟨fun v qp l => rfl, fun h => ?_⟩
  rw [ctxW_block2_value] at h
  have hst : st0.1 (compDot ctxW 2) 0 = 0 := rfl
  rw [hst] at h
  norm_num at h

/-- **C2**: with `request_jacobian = true`, the coupling block whose row is
the rate variable of active component `comp` and whose column is the
displacement variable of active trial component `bcomp` accumulates, over all
quadrature points and active `α`, `β`, exactly
`elasticity(comp,α,bcomp,β)·∇φ_j(β)·scale·∇φ_i(α)·JxW[qp]` for each test/trial
dof pair — covering every (component, trial component) pair among the active
dimensions; with `request_jacobian = false` no Jacobian entry changes while
the residual part is exactly the one computed with `request_jacobian =
true`. -/
theorem C2_interior_jacobian (c : Ctx) (s : St)
    (hdot : ∀ a b, a < c.dim → b < c.dim → compDot c a = compDot c b → a = b)
    (hvar : ∀ a b, a < c.dim → b < c.dim → compVar c a = compVar c b → a = b)
    (hdim : c.dim ≤ 3) {comp bcomp i0 j0 : ℕ}
    (hcomp : comp < c.dim) (hb : bcomp < c.dim)
    (hi0 : i0 < c.n_dof_indices c.u_var) (hj0 : j0 < c.n_dof_indices c.u_var) :
    ((element_time_derivative c true s).2.2 (compDot c comp) (compVar c bcomp) i0 j0 =
        s.2 (compDot c comp) (compVar c bcomp) i0 j0 +
          ∑ qp ∈ Finset.range c.n_elem_qp, ∑ alpha ∈ Finset.range c.dim,
            ∑ beta ∈ Finset.range c.dim,
              elasticity_tensor comp alpha bcomp beta *
                c.elem_grad_phi c.u_var j0 qp beta * c.elem_solution_derivative *
                c.elem_grad_phi c.u_var i0 qp alpha * c.elem_JxW c.u_var qp) ∧
      (element_time_derivative c false s).2.2 = s.2 ∧
      (element_time_derivative c false s).2.1 = (element_time_derivative c true s).2.1 := by
  refine ⟨?_, elem_jac_false c s, ?_⟩
  · rw [elem_jac_entry_true, interiorJacDelta_block c hdot hvar hcomp hb hdim hi0 hj0]
    congr 1
    refine Finset.sum_congr rfl fun qp _ => Finset.sum_congr rfl fun alpha _ =>
      Finset.sum_congr rfl fun beta _ => ?_
    unfold jacTerm
    ring
  · funext a b
    rw [elem_res_entry, elem_res_entry]

/-- Witness for C2 in the concrete 3-D context, blocks (2,1), dof pair
(0,0). -/
theorem C2_witness :
    ((∀ a b, a < ctxW.dim → b < ctxW.dim → compDot ctxW a = compDot ctxW b → a = b) ∧
        (∀ a b, a < ctxW.dim → b < ctxW.dim → compVar ctxW a = compVar ctxW b → a = b) ∧
        ctxW.dim ≤ 3 ∧ 2 < ctxW.dim ∧ 1 < ctxW.dim ∧
        0 < ctxW.n_dof_indices ctxW.u_var) ∧
      (((element_time_derivative ctxW true st0).2.2
            (compDot ctxW 2) (compVar ctxW 1) 0 0 =
          st0.2 (compDot ctxW 2) (compVar ctxW 1) 0 0 +
            ∑ qp ∈ Finset.range ctxW.n_elem_qp, ∑ alpha ∈ Finset.range ctxW.dim,
              ∑ beta ∈ Finset.range ctxW.dim,
                elasticity_tensor 2 alpha 1 beta *
                  ctxW.elem_grad_phi ctxW.u_var 0 qp beta *
                  ctxW.elem_solution_derivative *
                  ctxW.elem_grad_phi ctxW.u_var 0 qp alpha *
                  ctxW.elem_JxW ctxW.u_var qp) ∧
        (element_time_derivative ctxW false st0).2.2 = st0.2 ∧
        (element_time_derivative ctxW false st0).2.1 =
          (element_time_derivative ctxW true st0).2.1) :=
  ⟨⟨ctxW_hdot, ctxW_hvar, by decide, by decide, by decide, by decide⟩,
    C2_interior_jacobian ctxW st0 ctxW_hdot ctxW_hvar (by decide) (by decide) (by decide)
      (by decide) (by decide)⟩

/-- **C6**: `mass_residual` adds to the rate-variable residual block of each
active component exactly `Σ_qp ρ·accel(component)·φ_i·JxW[qp]`; the residual
increment is linear in ρ and in the acceleration (doubling either doubles the
increment of every dof); and with the Jacobian requested it adds
`Σ_qp ρ·φ_i·φ_j·JxW[qp]·accel_scale` only to the diagonal self-coupling blocks
(rate variable paired with itself), leaving every cross-component Jacobian
block untouched. -/
theorem C6_mass_residual (c : Ctx) (rb : Bool) (s : St)
    (hdot : ∀ a b, a < c.dim → b < c.dim → compDot c a = compDot c b → a = b)
    (hdim : c.dim ≤ 3) {comp bcomp i0 j0 : ℕ}
    (hcomp : comp < c.dim) (hb : bcomp < c.dim)
    (hi0 : i0 < c.n_dof_indices (c.dot_var c.u_var))
    (hj0 : j0 < c.n_dof_indices (c.dot_var c.u_var)) :
    ((mass_residual c rb s).2.1 (compDot c comp) i0 =
        s.1 (compDot c comp) i0 +
          ∑ qp ∈ Finset.range c.n_elem_qp,
            c.rho * c.interior_accel (compDot c comp) qp *
              c.elem_phi (c.dot_var c.u_var) i0 qp * c.elem_JxW (c.dot_var c.u_var) qp) ∧
      ((mass_residual { c with rho := 2 * c.rho } rb s).2.1 (compDot c comp) i0 -
          s.1 (compDot c comp) i0 =
        2 * ((mass_residual c rb s).2.1 (compDot c comp) i0 - s.1 (compDot c comp) i0)) ∧
      ((mass_residual
            { c with interior_accel := fun v qp => 2 * c.interior_accel v qp } rb s).2.1
            (compDot c comp) i0 - s.1 (compDot c comp) i0 =
        2 * ((mass_residual c rb s).2.1 (compDot c comp) i0 - s.1 (compDot c comp) i0)) ∧
      ((mass_residual c true s).2.2 (compDot c comp) (compDot c comp) i0 j0 =
        s.2 (compDot c comp) (compDot c comp) i0 j0 +
          ∑ qp ∈ Finset.range c.n_elem_qp,
            c.rho * c.elem_phi (c.dot_var c.u_var) i0 qp *
              c.elem_phi (c.dot_var c.u_var) j0 qp * c.elem_JxW (c.dot_var c.u_var) qp *
              c.elem_solution_accel_derivative) ∧
      (comp ≠ bcomp →
        (mass_residual c true s).2.2 (compDot c comp) (compDot c bcomp) i0 j0 =
          s.2 (compDot c comp) (compDot c bcomp) i0 j0) := by
  have hres : (mass_residual c rb s).2.1 (compDot c comp) i0 =
      s.1 (compDot c comp) i0 +
        ∑ qp ∈ Finset.range c.n_elem_qp,
          c.rho * c.interior_accel (compDot c comp) qp *
            c.elem_phi (c.dot_var c.u_var) i0 qp * c.elem_JxW (c.dot_var c.u_var) qp := by
    rw [mass_res_entry, massResDelta_block c hdot hcomp hdim hi0]
  refine ⟨hres, ?_, ?_, ?_, ?_⟩
  · have h2 : massResDelta { c with rho := 2 * c.rho } (compDot c comp) i0 =
        ∑ qp ∈ Finset.range c.n_elem_qp,
          2 * c.rho * c.interior_accel (compDot c comp) qp *
            c.elem_phi (c.dot_var c.u_var) i0 qp * c.elem_JxW (c.dot_var c.u_var) qp :=
      massResDelta_block { c with rho := 2 * c.rho } hdot hcomp hdim hi0
    rw [mass_res_entry, h2, hres]
    simp only [add_sub_cancel_left]
    rw [Finset.mul_sum]
    refine Finset.sum_congr rfl fun qp _ => ?_
    ring
  · have h2 : massResDelta
        { c with interior_accel := fun v qp => 2 * c.interior_accel v qp }
        (compDot c comp) i0 =
        ∑ qp ∈ Finset.range c.n_elem_qp,
          c.rho * (2 * c.interior_accel (compDot c comp) qp) *
            c.elem_phi (c.dot_var c.u_var) i0 qp * c.elem_JxW (c.dot_var c.u_var) qp :=
      massResDelta_block { c with interior_accel := fun v qp => 2 * c.interior_accel v qp }
        hdot hcomp hdim hi0
    rw [mass_res_entry, h2, hres]
    simp only [add_sub_cancel_left]
    rw [Finset.mul_sum]
    refine Finset.sum_congr rfl fun qp _ => ?_
    ring
  · rw [mass_jac_entry_true, massJacDelta_block c hdot hcomp hcomp hdim hi0 hj0,
      if_pos rfl]
    simp only [massJacTerm]
  · intro hne
    rw [mass_jac_entry_true, massJacDelta_block c hdot hcomp hb hdim hi0 hj0,
      if_neg hne]
    simp

/-- Witness for C6 in the concrete 3-D context, components 0 and 1, dof pair
(0,0). -/
theorem C6_witness :
    ((∀ a b, a < ctxW.dim → b < ctxW.dim → compDot ctxW a = compDot ctxW b → a = b) ∧
        ctxW.dim ≤ 3 ∧ 0 < ctxW.dim ∧ 1 < ctxW.dim ∧
        0 < ctxW.n_dof_indices (ctxW.dot_var ctxW.u_var)) ∧
      (((mass_residual ctxW true st0).2.1 (compDot ctxW 0) 0 =
          st0.1 (compDot ctxW 0) 0 +
            ∑ qp ∈ Finset.range ctxW.n_elem_qp,
              ctxW.rho * ctxW.interior_accel (compDot ctxW 0) qp *
                ctxW.elem_phi (ctxW.dot_var ctxW.u_var) 0 qp *
                ctxW.elem_JxW (ctxW.dot_var ctxW.u_var) qp) ∧
        ((mass_residual { ctxW with rho := 2 * ctxW.rho } true st0).2.1
              (compDot ctxW 0) 0 - st0.1 (compDot ctxW 0) 0 =
          2 * ((mass_residual ctxW true st0).2.1 (compDot ctxW 0) 0 -
            st0.1 (compDot ctxW 0) 0)) ∧
        ((mass_residual
              { ctxW with interior_accel := fun v qp => 2 * ctxW.interior_accel v qp }
              true st0).2.1 (compDot ctxW 0) 0 - st0.1 (compDot ctxW 0) 0 =
          2 * ((mass_residual ctxW true st0).2.1 (compDot ctxW 0) 0 -
            st0.1 (compDot ctxW 0) 0)) ∧
        ((mass_residual ctxW true st0).2.2 (compDot ctxW 0) (compDot ctxW 0) 0 0 =
          st0.2 (compDot ctxW 0) (compDot ctxW 0) 0 0 +
            ∑ qp ∈ Finset.range ctxW.n_elem_qp,
              ctxW.rho * ctxW.elem_phi (ctxW.dot_var ctxW.u_var) 0 qp *
                ctxW.elem_phi (ctxW.dot_var ctxW.u_var) 0 qp *
                ctxW.elem_JxW (ctxW.dot_var ctxW.u_var) qp *
                ctxW.elem_solution_accel_derivative) ∧
        ((0:ℕ) ≠ 1 →
          (mass_residual ctxW true st0).2.2 (compDot ctxW 0) (compDot ctxW 1) 0 0 =
            st0.2 (compDot ctxW 0) (compDot ctxW 1) 0 0)) :=
  ⟨⟨ctxW_hdot, by decide, by decide, by decide, by decide⟩,
    C6_mass_residual ctxW true st0 ctxW_hdot (by decide) (by decide) (by decide)
      (by decide) (by decide)⟩

/-- On a side carrying the pressure boundary id, the residual block of each
active component changes by minus the pressure load times `φ_i·JxW`, summed
over the side quadrature points. -/
theorem side_pressure_residual (c : Ctx) (rb : Bool) (s : St)
    (hdot : ∀ a b, a < c.dim → b < c.dim → compDot c a = compDot c b → a = b)
    (hdim : c.dim ≤ 3) {comp i0 : ℕ} (hcomp : comp < c.dim)
    (hi0 : i0 < c.n_dof_indices c.u_var)
    (hp : c.has_side_boundary_id c.pressure_boundary_id = true) :
    (side_time_derivative c rb s).2.1 (compDot c comp) i0 =
      s.1 (compDot c comp) i0 -
        ∑ qp ∈ Finset.range c.n_side_qp,
          100 * c.side_normals c.u_var qp comp * c.side_phi c.u_var i0 qp *
            c.side_JxW c.u_var qp := by
  rw [side_res_entry c rb s _ _ (by rw [hp, Bool.or_true]),
    sideResDelta_block c hdot hcomp hdim hi0]
  rw [sub_eq_add_neg, ← Finset.sum_neg_distrib]
  congr 1
  refine Finset.sum_congr rfl fun qp _ => ?_
  rw [tractionAt, if_pos hp]

/-- **C7**: on a face carrying the pressure boundary id, the applied load at
each quadrature point is the scalar pressure magnitude 100 times the outward
face normal; for a planar face with normal `(0,0,1)` the load is exactly
`(0,0,100)`; and the residual accumulates
`F_i -= load(comp)·φ_i·JxW[qp]` for each active component and local test
function. -/
theorem C7_pressure_face (c : Ctx) (rb : Bool) (s : St)
    (hdot : ∀ a b, a < c.dim → b < c.dim → compDot c a = compDot c b → a = b)
    (hdim : c.dim ≤ 3) {comp i0 : ℕ} (hcomp : comp < c.dim)
    (hi0 : i0 < c.n_dof_indices c.u_var)
    (hp : c.has_side_boundary_id c.pressure_boundary_id = true) :
    (∀ qp k, tractionAt c qp k = 100 * c.side_normals c.u_var qp k) ∧
      (∀ qp, c.side_normals c.u_var qp 0 = 0 → c.side_normals c.u_var qp 1 = 0 →
        c.side_normals c.u_var qp 2 = 1 →
        tractionAt c qp 0 = 0 ∧ tractionAt c qp 1 = 0 ∧ tractionAt c qp 2 = 100) ∧
      ((side_time_derivative c rb s).2.1 (compDot c comp) i0 =
        s.1 (compDot c comp) i0 -
          ∑ qp ∈ Finset.range c.n_side_qp,
            100 * c.side_normals c.u_var qp comp * c.side_phi c.u_var i0 qp *
              c.side_JxW c.u_var qp) := by
  have hload : ∀ qp k, tractionAt c qp k = 100 * c.side_normals c.u_var qp k := by
    intro qp k
    rw [tractionAt, if_pos hp]
  refine ⟨hload, fun qp h0 h1 h2 => ?_, side_pressure_residual c rb s hdot hdim hcomp hi0 hp⟩
  rw [hload, hload, hload, h0, h1, h2]
  norm_num

/-- Witness for C7 in the concrete 3-D context (pressure id present, normal
`(0,0,1)`), component 2, dof 0. -/
theorem C7_witness :
    ((∀ a b, a < ctxW.dim → b < ctxW.dim → compDot ctxW a = compDot ctxW b → a = b) ∧
        ctxW.dim ≤ 3 ∧ 2 < ctxW.dim ∧ 0 < ctxW.n_dof_indices ctxW.u_var ∧
        ctxW.has_side_boundary_id ctxW.pressure_boundary_id = true) ∧
      ((∀ qp k, tractionAt ctxW qp k = 100 * ctxW.side_normals ctxW.u_var qp k) ∧
        (∀ qp, ctxW.side_normals ctxW.u_var qp 0 = 0 →
          ctxW.side_normals ctxW.u_var qp 1 = 0 →
          ctxW.side_normals ctxW.u_var qp 2 = 1 →
          tractionAt ctxW qp 0 = 0 ∧ tractionAt ctxW qp 1 = 0 ∧ tractionAt ctxW qp 2 = 100) ∧
        ((side_time_derivative ctxW false st0).2.1 (compDot ctxW 2) 0 =
          st0.1 (compDot ctxW 2) 0 -
            ∑ qp ∈ Finset.range ctxW.n_side_qp,
              100 * ctxW.side_normals ctxW.u_var qp 2 * ctxW.side_phi ctxW.u_var 0 qp *
                ctxW.side_JxW ctxW.u_var qp)) :=
  ⟨⟨ctxW_hdot, by decide, by decide, by decide, rfl⟩,
    C7_pressure_face ctxW false st0 ctxW_hdot (by decide) (by decide) (by decide) rfl⟩

/-- **C10**: when a side carries both the traction and the pressure boundary
id, only the pressure load is applied: the default traction `(0,…,0,−1)` is
overwritten with `pressure · normal` at every quadrature point before any
residual accumulation, so the load used for every component is
`100 · normal` and the residual change is exactly the pressure-face one. -/
theorem C10_double_tagged_side (c : Ctx) (rb : Bool) (s : St)
    (hdot : ∀ a b, a < c.dim → b < c.dim → compDot c a = compDot c b → a = b)
    (hdim : c.dim ≤ 3) {comp i0 : ℕ} (hcomp : comp < c.dim)
    (hi0 : i0 < c.n_dof_indices c.u_var)
    (ht : c.has_side_boundary_id c.traction_boundary_id = true)
    (hp : c.has_side_boundary_id c.pressure_boundary_id = true) :
    (∀ qp k, tractionAt c qp k = 100 * c.side_normals c.u_var qp k) ∧
      ((side_time_derivative c rb s).2.1 (compDot c comp) i0 =
        s.1 (compDot c comp) i0 -
          ∑ qp ∈ Finset.range c.n_side_qp,
            100 * c.side_normals c.u_var qp comp * c.side_phi c.u_var i0 qp *
              c.side_JxW c.u_var qp) :=
  ⟨fun qp k => by rw [tractionAt, if_pos hp],
    side_pressure_residual c rb s hdot hdim hcomp hi0 hp⟩

/-- Witness for C10 in the concrete 3-D context (both ids present),
component 0, dof 0. -/
theorem C10_witness :
    ((∀ a b, a < ctxW.dim → b < ctxW.dim → compDot ctxW a = compDot ctxW b → a = b) ∧
        ctxW.dim ≤ 3 ∧ 0 < ctxW.dim ∧ 0 < ctxW.n_dof_indices ctxW.u_var ∧
        ctxW.has_side_boundary_id ctxW.traction_boundary_id = true ∧
        ctxW.has_side_boundary_id ctxW.pressure_boundary_id = true) ∧
      ((∀ qp k, tractionAt ctxW qp k = 100 * ctxW.side_normals ctxW.u_var qp k) ∧
        ((side_time_derivative ctxW true st0).2.1 (compDot ctxW 0) 0 =
          st0.1 (compDot ctxW 0) 0 -
            ∑ qp ∈ Finset.range ctxW.n_side_qp,
              100 * ctxW.side_normals ctxW.u_var qp 0 * ctxW.side_phi ctxW.u_var 0 qp *
                ctxW.side_JxW ctxW.u_var qp)) :=
  ⟨⟨ctxW_hdot, by decide, by decide, by decide, rfl, rfl⟩,
    C10_double_tagged_side ctxW true st0 ctxW_hdot (by decide) (by decide) (by decide)
      rfl rfl⟩

end LibmeshEx3
